import Mathlib

/-!
Verification development for the logging rotation and webhook-delivery subsystem
of the ElysianCat Discord bot template (`src/logging_/handlers.py`).

The Python code is shallowly embedded: pure decision logic becomes Lean
functions, stateful methods become explicit state-passing functions, code
that can raise returns `Except String`.  Timestamps are modelled at whole
second resolution for the rotation engine (`Int` seconds since epoch /
civil days) and as rationals for the dispatcher (Python `time.time()`
floats compared and subtracted only).
-/

namespace ElysianLogging

/-! ## Rotation policy engine (`DualRotatingHandler`) -/

/-- The `when` rotation policy of `DualRotatingHandler`: the validated form of the
`"S" | "M" | "H" | "D" | "MIDNIGHT" | "W0".."W6"` strings.  For a weekly policy
`_validate_parameters` stores the parsed digit in `self.day_of_week`; here it is
carried by the constructor. -/
inductive When where
  | S
  | M
  | H
  | D
  | MIDNIGHT
  | W (day : Int)

/-- A civil datetime at second resolution: whole days since the epoch and the
second within the day (valid values satisfy `0 ≤ sec < 86400`).  Mirrors the
`datetime` values flowing through `compute_rollover`; `timedelta` addition and
`replace(hour=..., minute=..., second=...)` act on these two fields. -/
structure DateTime where
  days : Int
  sec : Int

/-- Seconds since the epoch, as computed by the timestamp method. -/
def DateTime.timestamp (t : DateTime) : Int := t.days * 86400 + t.sec

/-- Python `datetime.weekday()`: Monday = 0.  Day 0 of the epoch (1970-01-01)
was a Thursday, i.e. weekday 3. -/
def pyWeekday (days : Int) : Int := (days + 3) % 7

/-- The second-of-day denoted by the optional `at_time` (`datetime.time`) anchor:
`hour*3600 + minute*60 + second`, or midnight when no anchor is configured.
A real `datetime.time` always yields a value in `[0, 86400)`. -/
def atTimeSeconds (atTime : Option Int) : Int := atTime.getD 0

/-- Seconds added per unit of `interval` in the `"S" | "M" | "H" | "D"` branch of
`compute_rollover` (the `time_units` table turned into `timedelta` arguments). -/
def timeUnitSeconds : When → Int
  | .S => 1
  | .M => 60
  | .H => 3600
  | .D => 86400
  | _ => 0

/-- Model of compute_rollover: the epoch timestamp of the next
scheduled rollover.
* `MIDNIGHT`: one day is added to `current_time` and the time-of-day fields are
  reset to zero, then overwritten by `at_time` when configured.
* `S`/`M`/`H`/`D`: `current_time + timedelta(unit=interval)`.
* `W day`: `days_to_go = (day_of_week - current_time.weekday() + 7) % 7`,
  bumped to 7 when zero, added to the date; time-of-day comes from `at_time`
  (midnight when absent). -/
def computeRollover (w : When) (interval : Int) (atTime : Option Int) (t : DateTime) : Int :=
  match w with
  | .MIDNIGHT => (t.days + 1) * 86400 + atTimeSeconds atTime
  | .S | .M | .H | .D => t.timestamp + interval * timeUnitSeconds w
  | .W day =>
      let daysToGo0 := (day - pyWeekday t.days + 7) % 7
      let daysToGo := if daysToGo0 = 0 then 7 else daysToGo0
      (t.days + daysToGo) * 86400 + atTimeSeconds atTime

/-- Model of should_rollover: rotate when the size limit is enabled
and reached (checked first, early return), otherwise when the creation
time of the record has reached the scheduled rollover instant. -/
def shouldRollover (maxBytes fileSize : Nat) (created rolloverAt : Int) : Bool :=
  if 0 < maxBytes then
    if maxBytes ≤ fileSize then true
    else decide (rolloverAt ≤ created)
  else decide (rolloverAt ≤ created)

/-- C3: `should_rotate` returns true iff (`max_bytes > 0` and
`current_file_size >= max_bytes`) or `now >= next_rollover`; in particular
either condition alone forces a rotation, independent of the other. -/
theorem should_rollover_iff (maxBytes fileSize : Nat) (created rolloverAt : Int) :
    shouldRollover maxBytes fileSize created rolloverAt = true
      ↔ ((0 < maxBytes ∧ maxBytes ≤ fileSize) ∨ rolloverAt ≤ created) := by
  unfold shouldRollover
  split_ifs with h1 h2 <;> simp_all

/-- C6: for every valid rotation policy (any supported unit, positive interval,
any or no anchor time) and every clock value, `compute_rollover` returns a
timestamp strictly greater than "now". -/
theorem compute_rollover_strictly_future (w : When) (interval : Int) (atTime : Option Int)
    (t : DateTime) (hsec0 : 0 ≤ t.sec) (hsec : t.sec < 86400) (hint : 1 ≤ interval)
    (hat : 0 ≤ atTimeSeconds atTime) :
    t.timestamp < computeRollover w interval atTime t := by
  cases w with
  | MIDNIGHT =>
      simp only [computeRollover, DateTime.timestamp]
      linarith
  | S =>
      simp only [computeRollover, timeUnitSeconds, DateTime.timestamp]
      linarith
  | M =>
      simp only [computeRollover, timeUnitSeconds, DateTime.timestamp]
      linarith
  | H =>
      simp only [computeRollover, timeUnitSeconds, DateTime.timestamp]
      linarith
  | D =>
      simp only [computeRollover, timeUnitSeconds, DateTime.timestamp]
      linarith
  | W day =>
      simp only [computeRollover, DateTime.timestamp]
      have h7 : (0 : Int) < 7 := by norm_num
      set d0 := (day - pyWeekday t.days + 7) % 7 with hd0
      have hd0nn : 0 ≤ d0 := Int.emod_nonneg _ (by norm_num)
      by_cases hz : d0 = 0
      · simp only [hz, if_pos rfl, if_true, eq_self_iff_true]
        linarith
      · rw [if_neg hz]
        have hd1 : 1 ≤ d0 := lt_of_le_of_ne hd0nn (Ne.symm hz)
        nlinarith

/-- Witness for C6 at a concrete policy and clock value. -/
theorem compute_rollover_strictly_future_witness :
    0 ≤ (⟨19000, 500⟩ : DateTime).sec ∧ (⟨19000, 500⟩ : DateTime).sec < 86400
      ∧ (1 : Int) ≤ 1 ∧ 0 ≤ atTimeSeconds (some 3600)
      ∧ DateTime.timestamp ⟨19000, 500⟩ < computeRollover (.W 2) 1 (some 3600) ⟨19000, 500⟩ :=
  ⟨by decide, by decide, by decide, by decide,
    compute_rollover_strictly_future (.W 2) 1 (some 3600) ⟨19000, 500⟩
      (by decide) (by decide) (by decide) (by decide)⟩

/-- C7 counterexample: on 1970-01-01 (a Thursday, weekday 3) with policy `W3`
and anchor time 12:00, the next rollover is 7.5 days away — more than the
claimed 7-day bound. -/
theorem weekly_same_day_counterexample :
    pyWeekday 0 = 3
      ∧ ¬ (computeRollover (.W 3) 1 (some 43200) ⟨0, 0⟩
            - DateTime.timestamp ⟨0, 0⟩ ≤ 7 * 86400) := by
  constructor
  · decide
  · decide

/-- C7 (amended): in weekly mode, when `now` falls exactly on the target
weekday the computed next rollover is at least 6 days and strictly less than
8 days after now (never the same day); it is within 7 days exactly when the
anchor time-of-day (midnight if no anchor is given) does not exceed the
time-of-day of now. -/
theorem weekly_same_day_rollover_bounds (day interval : Int) (atTime : Option Int)
    (t : DateTime) (hsec0 : 0 ≤ t.sec) (hsec : t.sec < 86400)
    (hat0 : 0 ≤ atTimeSeconds atTime) (hat : atTimeSeconds atTime < 86400)
    (hsame : pyWeekday t.days = day) :
    6 * 86400 ≤ computeRollover (.W day) interval atTime t - t.timestamp
      ∧ computeRollover (.W day) interval atTime t - t.timestamp < 8 * 86400
      ∧ (computeRollover (.W day) interval atTime t - t.timestamp ≤ 7 * 86400
          ↔ atTimeSeconds atTime ≤ t.sec) := by
  have hz : (day - pyWeekday t.days + 7) % 7 = 0 := by
    rw [← hsame]
    simp
  simp only [computeRollover, DateTime.timestamp, hz, if_pos rfl, if_true, eq_self_iff_true]
  refine ⟨by linarith, by linarith, ⟨fun h => by linarith, fun h => by linarith⟩⟩

/-- Witness for C7 (amended) at a concrete same-weekday clock value. -/
theorem weekly_same_day_rollover_bounds_witness :
    pyWeekday (0 : Int) = 3
      ∧ 6 * 86400 ≤ computeRollover (.W 3) 1 (some 43200) ⟨0, 0⟩
          - DateTime.timestamp ⟨0, 0⟩ := by
  refine ⟨by decide, ?_⟩
  exact (weekly_same_day_rollover_bounds 3 1 (some 43200) ⟨0, 0⟩
    (by decide) (by decide) (by decide) (by decide) (by decide)).1

/-! ## Numeric backup rotation (`do_rollover`, count mode)

The filesystem restricted to the numeric backup names of one handler: index
`i ≥ 1` stands for the file `<baseFilename>.<i>`, `none` meaning the file does
not exist. -/

/-- Backup files of the handler, indexed by numeric suffix. -/
abbrev NumericFs := Nat → Option String

/-- Effect of `os.rename`/`os.remove` on the backup map. -/
def upd (fs : NumericFs) (i : Nat) (v : Option String) : NumericFs :=
  fun j => if j = i then v else fs j

/-- One iteration of the numeric shift loop at `index`: when `<base>.<index>`
exists, remove `<base>.<index+1>` if present and rename `<base>.<index>` to it;
otherwise do nothing. -/
def shiftStep (fs : NumericFs) (index : Nat) : NumericFs :=
  match fs index with
  | some c => upd (upd fs (index + 1) (some c)) index none
  | none => fs

/-- Python `range(i, 0, -1)`: the indices `i, i-1, ..., 1`. -/
def descRange : Nat → List Nat
  | 0 => []
  | i + 1 => (i + 1) :: descRange i

/-- The shift loop `for index in range(backup_count - 1, 0, -1)` run over the
indices `i, ..., 1`. -/
def shiftAll (i : Nat) (fs : NumericFs) : NumericFs :=
  (descRange i).foldl shiftStep fs

/-- Model of do_rollover in numeric ("count") mode: shift the backups at indices
`backup_count - 1, …, 1` up by one, rename the live file (when present) to
`<base>.1`, then open a fresh empty live file.  Returns the new live-file
content paired with the new backup map. -/
def doRolloverCount (backupCount : Nat) (live : Option String) (fs : NumericFs) :
    Option String × NumericFs :=
  let fs1 := shiftAll (backupCount - 1) fs
  match live with
  | some c => (some "", upd fs1 1 (some c))
  | none => (some "", fs1)

/-- Iterated rollovers starting from a directory with no backups: before
the `n`-th rollover the live file holds `cs[n-1]` (the content written since
the previous rollover). -/
def rotateMany (backupCount : Nat) (cs : List String) : NumericFs :=
  cs.foldl (fun fs c => (doRolloverCount backupCount (some c) fs).2) (fun _ => none)

/-- The backup map holds exactly the backups listed newest-first in `l`:
`<base>.<i+1>` holds `l[i]`. -/
def ReprBackups (l : List String) (fs : NumericFs) : Prop :=
  ∀ i : Nat, fs (i + 1) = l.get? i

theorem shiftStep_ne (fs : NumericFs) (index j : Nat) (h1 : j ≠ index) (h2 : j ≠ index + 1) :
    shiftStep fs index j = fs j := by
  cases h : fs index with
  | some c => simp [shiftStep, h, upd, h1, h2]
  | none => simp [shiftStep, h]

theorem shiftStep_index (fs : NumericFs) (index : Nat) : shiftStep fs index index = none := by
  cases h : fs index with
  | some c => simp [shiftStep, h, upd]
  | none => simp [shiftStep, h]

theorem shiftStep_succ (fs : NumericFs) (index : Nat) :
    shiftStep fs index (index + 1)
      = (if (fs index).isSome then fs index else fs (index + 1)) := by
  cases h : fs index with
  | some c => simp [shiftStep, h, upd]
  | none => simp [shiftStep, h]

theorem shiftAll_zero_eq (fs : NumericFs) : shiftAll 0 fs = fs := rfl

theorem shiftAll_succ_eq (i : Nat) (fs : NumericFs) :
    shiftAll (i + 1) fs = shiftAll i (shiftStep fs (i + 1)) := rfl

/-- Exact description of the shift loop on every index: indices above `i+1` are
untouched, index `i+1` receives the content of index `i` when present, indices
`2, …, i` receive the content of their predecessor, index `1` is vacated, and index
`0` (never a backup name) is untouched. -/
theorem shiftAll_spec (i : Nat) : ∀ fs : NumericFs,
    (∀ j, i + 2 ≤ j → shiftAll i fs j = fs j)
    ∧ (∀ j, 2 ≤ j → j ≤ i → shiftAll i fs j = fs (j - 1))
    ∧ (1 ≤ i → shiftAll i fs (i + 1) = (if (fs i).isSome then fs i else fs (i + 1)))
    ∧ (1 ≤ i → shiftAll i fs 1 = none)
    ∧ shiftAll i fs 0 = fs 0 := by
  induction i with
  | zero =>
      intro fs
      refine ⟨fun j _ => rfl, fun j h2 h0 => absurd (le_trans h2 h0) (by norm_num),
        fun h => absurd h (by norm_num), fun h => absurd h (by norm_num), rfl⟩
  | succ i ih =>
      intro fs
      obtain ⟨ihHigh, ihMid, ihTop, ihOne, ihZero⟩ := ih (shiftStep fs (i + 1))
      have hlow : ∀ j, j ≤ i → shiftStep fs (i + 1) j = fs j := fun j hj =>
        shiftStep_ne fs (i + 1) j (by omega) (by omega)
      refine ⟨?_, ?_, ?_, ?_, ?_⟩
      · -- indices ≥ i + 3 untouched
        intro j hj
        rw [shiftAll_succ_eq, ihHigh j (by omega),
          shiftStep_ne fs (i + 1) j (by omega) (by omega)]
      · -- indices 2 … i + 1 receive the content of their predecessor
        intro j h2 hji
        rw [shiftAll_succ_eq]
        rcases Nat.lt_or_ge j (i + 1) with hlt | hge
        · rw [ihMid j h2 (by omega), hlow (j - 1) (by omega)]
        · have hj : j = i + 1 := by omega
          subst hj
          have hi1 : 1 ≤ i := by omega
          rw [ihTop hi1, hlow i (by omega)]
          cases h : fs i with
          | some c => simp [h]
          | none =>
              simp only [h, Option.isSome_none, Bool.false_eq_true, if_false]
              have hidx : shiftStep fs (i + 1) (i + 1) = none := shiftStep_index fs (i + 1)
              rw [hidx, show i + 1 - 1 = i from rfl, h]
      · -- index i + 2: receives the content of index i + 1 when present
        intro _
        rw [shiftAll_succ_eq, ihHigh (i + 2) (by omega), shiftStep_succ]
      · -- index 1 is vacated
        intro _
        rw [shiftAll_succ_eq]
        rcases Nat.eq_zero_or_pos i with hz | hpos
        · subst hz
          rw [shiftAll_zero_eq]
          exact shiftStep_index fs 1
        · exact ihOne hpos
      · -- index 0 untouched
        rw [shiftAll_succ_eq, ihZero, hlow 0 (by omega)]

/-- One numeric-mode rollover turns the backup list `l` into
`c :: l.take (backup_count - 1)`: the rotated-out live content becomes `.1` and
everything beyond `backup_count` is evicted. -/
theorem doRolloverCount_repr (backupCount : Nat) (c : String) (l : List String)
    (fs : NumericFs) (hrepr : ReprBackups l fs) (hlen : l.length ≤ max backupCount 1) :
    ReprBackups (c :: l.take (backupCount - 1))
      (doRolloverCount backupCount (some c) fs).2 := by
  intro i
  show upd (shiftAll (backupCount - 1) fs) 1 (some c) (i + 1)
      = (c :: l.take (backupCount - 1)).get? i
  obtain ⟨sHigh, sMid, sTop, sOne, sZero⟩ := shiftAll_spec (backupCount - 1) fs
  cases i with
  | zero => simp [upd]
  | succ m =>
      have hne : m + 1 + 1 ≠ 1 := by omega
      simp only [upd, if_neg hne, List.get?]
      rcases Nat.lt_or_ge backupCount 2 with hk | hk
      · -- backup_count 0 or 1: the shift loop is empty and no backup survives
        have h0 : backupCount - 1 = 0 := by omega
        rw [h0, shiftAll_zero_eq, hrepr (m + 1)]
        have hnone : l.get? (m + 1) = none :=
          List.get?_eq_none.mpr (by omega)
        rw [hnone]
        simp
      · -- backup_count ≥ 2
        have hK : max backupCount 1 = backupCount := by omega
        rw [hK] at hlen
        rcases Nat.lt_or_ge (m + 2) backupCount with hlt | hge
        · -- middle of the shifted range
          rw [sMid (m + 2) (by omega) (by omega), show m + 2 - 1 = m + 1 from rfl, hrepr m]
          have : (l.take (backupCount - 1)).get? m = l.get? m :=
            List.get?_take (by omega)
          rw [this]
        · rcases Nat.eq_or_lt_of_le hge with heq | hgt
          · -- top of the shifted range: index backup_count
            have hm2 : m + 2 = (backupCount - 1) + 1 := by omega
            rw [hm2, sTop (by omega)]
            have hr1 : fs (backupCount - 1) = l.get? (backupCount - 2) := by
              have := hrepr (backupCount - 2)
              rwa [show backupCount - 2 + 1 = backupCount - 1 by omega] at this
            have hr2 : fs ((backupCount - 1) + 1) = l.get? (backupCount - 1) := by
              have := hrepr (backupCount - 1)
              rwa [show backupCount - 1 + 1 = backupCount - 1 + 1 from rfl] at this
            have hm : m = backupCount - 2 := by omega
            have htake : (l.take (backupCount - 1)).get? m = l.get? m :=
              List.get?_take (by omega)
            rw [htake, hr1, hr2, hm]
            cases h : l.get? (backupCount - 2) with
            | some v => simp
            | none =>
                have hnone1 : l.get? (backupCount - 1) = none :=
                  List.get?_eq_none.mpr (by
                    have := List.get?_eq_none.mp h
                    omega)
                have hlen2 : l.length ≤ backupCount - 2 := List.get?_eq_none.mp h
                simp [hnone1, h] <;> omega
          · -- beyond the shifted range: untouched and empty
            rw [sHigh (m + 2) (by omega), hrepr (m + 1)]
            have hnone : l.get? (m + 1) = none :=
              List.get?_eq_none.mpr (by omega)
            rw [hnone]
            have : (l.take (backupCount - 1)).get? m = none :=
              List.get?_eq_none.mpr (by
                have := List.length_take_le (backupCount - 1) l
                omega)
            rw [this]

theorem take_cons_take (c : String) (l : List String) (j n : Nat) (h : j ≤ n + 1) :
    (c :: l.take n).take j = (c :: l).take j := by
  cases j with
  | zero => rfl
  | succ j' =>
      simp only [List.take_succ_cons, List.take_take]
      rw [min_eq_left (by omega)]

theorem take_append_cons_take (X : List String) (c : String) (l : List String) (K n : Nat)
    (h : K ≤ X.length + n + 1) :
    (X ++ c :: l.take n).take K = (X ++ c :: l).take K := by
  rw [List.take_append_eq_append_take, List.take_append_eq_append_take]
  rcases Nat.lt_or_ge K X.length with hlt | hge
  · have h0 : K - X.length = 0 := by omega
    rw [h0]
    simp
  · exact congrArg _ (take_cons_take c l (K - X.length) n (by omega))

theorem rotateMany_repr_aux (k : Nat) (cs : List String) : ∀ (l : List String) (fs : NumericFs),
    ReprBackups l fs → l.length ≤ max k 1 →
    ReprBackups ((cs.reverse ++ l).take (max k 1))
      (cs.foldl (fun fs c => (doRolloverCount k (some c) fs).2) fs) := by
  induction cs with
  | nil =>
      intro l fs hrepr hlen
      simpa [List.take_all_of_le hlen] using hrepr
  | cons c cs ih =>
      intro l fs hrepr hlen
      have hstep := doRolloverCount_repr k c l fs hrepr hlen
      have hlen1 : (c :: l.take (k - 1)).length ≤ max k 1 := by
        simp only [List.length_cons, List.length_take]
        omega
      have := ih (c :: l.take (k - 1)) ((doRolloverCount k (some c) fs).2) hstep hlen1
      have harr : (cs.reverse ++ (c :: l.take (k - 1))).take (max k 1)
          = ((c :: cs).reverse ++ l).take (max k 1) := by
        rw [List.reverse_cons, List.append_assoc]
        show (cs.reverse ++ c :: l.take (k - 1)).take (max k 1)
            = (cs.reverse ++ (c :: l)).take (max k 1)
        exact take_append_cons_take cs.reverse c l (max k 1) (k - 1) (by omega)
      rw [harr] at this
      simpa [List.foldl_cons] using this

/-- After any sequence of numeric-mode rollovers starting with no backups, the
backup files hold the rotated-out contents newest-first, truncated at the
retention limit. -/
theorem rotateMany_repr (k : Nat) (cs : List String) :
    ReprBackups (cs.reverse.take (max k 1)) (rotateMany k cs) := by
  have h := rotateMany_repr_aux k cs [] (fun _ => none) (fun _ => rfl) (by simp)
  simpa [rotateMany] using h

/-- C5 counterexample: with `backup_count = 0`, one rollover still renames the
live file to `<base>.1`, so a backup exists although `min(N, k) = 0`. -/
theorem numeric_backup_zero_count_counterexample :
    (rotateMany 0 ["a"] 1).isSome = true ∧ min 1 0 = 0 := by
  exact ⟨rfl, rfl⟩

/-- C5 (amended, restricted to `backup_count ≥ 1`): after `N ≥ 1` numeric-mode
rollovers with `backup_count = k ≥ 1`, exactly the backups `.1 … .min(N, k)`
exist and `.1` holds the most recently rotated-out content.  (With
`backup_count = 0` the code still leaves the single backup `.1` behind.) -/
theorem numeric_backup_rotation (k : Nat) (cs : List String) (hk : 1 ≤ k)
    (hcs : 1 ≤ cs.length) :
    (∀ i : Nat, 1 ≤ i → ((rotateMany k cs i).isSome = true ↔ i ≤ min cs.length k))
      ∧ rotateMany k cs 1 = cs.getLast? := by
  have hrepr := rotateMany_repr k cs
  have hK : max k 1 = k := by omega
  rw [hK] at hrepr
  constructor
  · intro i hi
    obtain ⟨m, rfl⟩ : ∃ m, i = m + 1 := ⟨i - 1, by omega⟩
    rw [hrepr m]
    constructor
    · intro hsome
      by_contra hgt
      have hnone : (cs.reverse.take k).get? m = none :=
        List.get?_eq_none.mpr (by
          simp only [List.length_take, List.length_reverse]
          omega)
      rw [hnone] at hsome
      simp at hsome
    · intro hle
      have hlt : m < (cs.reverse.take k).length := by
        simp only [List.length_take, List.length_reverse]
        omega
      rw [List.get?_eq_get hlt]
      rfl
  · have h0 := hrepr 0
    rw [show (0 : Nat) + 1 = 1 from rfl] at h0
    rw [h0]
    have : (cs.reverse.take k).get? 0 = cs.reverse.get? 0 := List.get?_take (by omega)
    rw [this, List.get?_zero, List.head?_reverse]

/-- Witness for C5 (amended): three rollovers with `backup_count = 2`. -/
theorem numeric_backup_rotation_witness :
    1 ≤ 2 ∧ 1 ≤ (["a", "b", "c"] : List String).length
      ∧ ((∀ i : Nat, 1 ≤ i →
            ((rotateMany 2 ["a", "b", "c"] i).isSome = true
              ↔ i ≤ min (["a", "b", "c"] : List String).length 2))
          ∧ rotateMany 2 ["a", "b", "c"] 1 = (["a", "b", "c"] : List String).getLast?) :=
  ⟨by decide, by decide,
    numeric_backup_rotation 2 ["a", "b", "c"] (by decide) (by decide)⟩

/-! ## Buffered webhook dispatcher (`DiscordWebHookHandler`) -/

/-- A log record as the dispatcher sees it: `is_urgent` is an optional dynamic
attribute (checked with `hasattr`, then used for its truth value). -/
structure LogRecord where
  msg : String
  isUrgent : Option Bool

/-- JSON-like values exchanged with the formatter and sent as the webhook
payload: Python strings, lists and dictionaries. -/
inductive JVal where
  | str (v : String)
  | arr (items : List JVal)
  | obj (entries : List (String × JVal))

/-- Dictionary lookup, first binding wins. -/
def jlookup : List (String × JVal) → String → Option JVal
  | [], _ => none
  | (k, v) :: rest, key => if k = key then some v else jlookup rest key

/-- The `required_fields` list of `_is_valid_embed`. -/
def requiredFields : List String :=
  ["title", "description", "url", "timestamp", "color", "footer", "image",
    "thumbnail", "video", "provider", "author", "fields"]

/-- Model of `_is_valid_embed`: a dictionary containing at least one required
field. -/
def isValidEmbed : JVal → Bool
  | .obj entries => requiredFields.any (fun f => (jlookup entries f).isSome)
  | _ => false

/-- The batch branch of `_flush`: when the formatter offers `format_batch`, its
result contributes exactly its valid-embed elements; a non-list or empty result
contributes nothing (there is no fallback to per-record formatting). -/
def buildBatch : JVal → List JVal
  | .arr items => if items.isEmpty then [] else items.filter (fun e => isValidEmbed e)
  | _ => []

/-- The per-record branch of `_flush` applied to the already-formatted records:
a plain string is wrapped as a one-key content dictionary; a dictionary with an
`"embeds"` key has its value indexed at 0 — the first element of a non-empty
list, the first character (as a one-character string, which then fails the
embed check) of a non-empty string — and the resulting embed contributes when
valid; indexing an empty list or string raises IndexError, indexing a
dictionary with 0 raises KeyError, exactly where Python would; anything else
is skipped. -/
def buildPerRecord : List JVal → Except String (List JVal)
  | [] => .ok []
  | m :: rest =>
    let head : Except String (List JVal) :=
      match m with
      | .str s => .ok [.obj [("content", .str s)]]
      | .obj entries =>
          match jlookup entries "embeds" with
          | some (.arr (e :: _)) => .ok (if isValidEmbed e then [e] else [])
          | some (.arr []) => .error "IndexError: list index out of range"
          | some (.str s) =>
              match s.data with
              | [] => .error "IndexError: string index out of range"
              | ch :: _ =>
                  .ok (if isValidEmbed (.str (String.mk [ch]))
                    then [JVal.str (String.mk [ch])] else [])
          | some (.obj _) => .error "KeyError: 0"
          | none => .ok []
      | .arr _ => .ok []
    match head with
    | .error e => .error e
    | .ok items =>
        match buildPerRecord rest with
        | .error e => .error e
        | .ok tail => .ok (items ++ tail)

/-- The strings joined into the payload `content`: for every payload item that
is a dictionary with a `"content"` key, its value, which must be a string for
the join to succeed.  Non-dictionary items (which the two builders never
produce) behave as the Python membership test and indexing would. -/
def contentParts : List JVal → Except String (List String)
  | [] => .ok []
  | .obj entries :: rest =>
      (match jlookup entries "content" with
       | some (.str s) =>
           match contentParts rest with
           | .ok t => .ok (s :: t)
           | .error e => .error e
       | some _ => .error "TypeError: sequence item is not a str instance"
       | none => contentParts rest)
  | .str v :: rest =>
      if (v.splitOn "content").length > 1 then
        .error "TypeError: string indices must be integers"
      else contentParts rest
  | .arr items :: rest =>
      if items.any (fun x => match x with | .str s => s == "content" | _ => false) then
        .error "TypeError: list indices must be integers"
      else contentParts rest

/-- The `embeds` sub-list of the payload: items that are dictionaries and valid
embeds. -/
def embedsOf (payloadContent : List JVal) : List JVal :=
  payloadContent.filter (fun item =>
    (match item with | .obj _ => true | _ => false) && isValidEmbed item)

/-- The final payload dictionary: an `embeds` key when any embeds exist, a
`content` key when the joined text is non-empty. -/
def mkPayload (embeds : List JVal) (content : String) : JVal :=
  .obj ((if embeds.isEmpty then [] else [("embeds", JVal.arr embeds)])
    ++ (if content.isEmpty then [] else [("content", JVal.str content)]))

/-- The external formatter collaborator: a per-record `format`, and
`format_batch` when the formatter object offers one. -/
structure Formatter where
  format : LogRecord → JVal
  formatBatch : Option (List LogRecord → JVal)

/-- The payload `_flush` would send for a given buffer: `none` when no network
request happens (empty buffer, or nothing valid to send), `some payload` when a
request is made, `.error` when formatting or payload assembly raises. -/
def flushPayload (fmt : Formatter) (buffer : List LogRecord) : Except String (Option JVal) :=
  if buffer.isEmpty then .ok none
  else
    let built : Except String (List JVal) :=
      match fmt.formatBatch with
      | some fb => .ok (buildBatch (fb buffer))
      | none => buildPerRecord (buffer.map fmt.format)
    match built with
    | .error e => .error e
    | .ok payloadContent =>
        if payloadContent.isEmpty then .ok none
        else
          match contentParts payloadContent with
          | .error e => .error e
          | .ok parts =>
              .ok (some (mkPayload (embedsOf payloadContent)
                (String.intercalate "\n" parts)))

/-- Mutable dispatcher state touched by `emit` and `_flush`: the record buffer
and the last-successful-send timestamp (`time.time()` values as rationals). -/
structure DispatcherState where
  buffer : List LogRecord
  lastSentTime : Rat

/-- Outcome of `_send_logs_to_webhook`: the Discord 204 success, or a raised
status-code error, transport failure or timeout. -/
inductive SendOutcome where
  | success
  | failure (msg : String)

/-- Model of `_flush` as a state transformer: the first component is the call
outcome (`.error` means the exception propagated to the flush caller), the
second the state after the call.  Mutations happen only after a successful
send: the timestamp update to the clock value `tNow` read just after the send,
then the buffer clear. -/
def flushRun (fmt : Formatter) (st : DispatcherState) (send : SendOutcome) (tNow : Rat) :
    Except String Unit × DispatcherState :=
  match flushPayload fmt st.buffer with
  | .error e => (.error e, st)
  | .ok none => (.ok (), st)
  | .ok (some _) =>
      match send with
      | .failure msg => (.error msg, st)
      | .success => (.ok (), { buffer := [], lastSentTime := tNow })

/-- Truthiness of `record.is_urgent` guarded by `hasattr`. -/
def recordIsUrgent (r : LogRecord) : Bool :=
  match r.isUrgent with
  | some b => b
  | none => false

/-- Model of `should_flush`, evaluated by `emit` after the append: urgent
record, or buffer length at (or beyond) capacity. -/
def shouldFlush (capacity : Nat) (buffer : List LogRecord) (r : LogRecord) : Bool :=
  recordIsUrgent r || decide (capacity ≤ buffer.length)

/-- Model of `emit`: append the record under the lock, then report whether a
flush was scheduled onto the background loop (`should_flush`, or throttle
period expired since the last successful send). -/
def emit (capacity : Nat) (throttleLimit : Rat) (st : DispatcherState) (r : LogRecord)
    (tNow : Rat) : DispatcherState × Bool :=
  let buf := st.buffer ++ [r]
  ({ st with buffer := buf },
    shouldFlush capacity buf r || decide (throttleLimit ≤ tNow - st.lastSentTime))

/-- A sequence of `emit` calls at given clock values; returns the final state
and, per call, whether that call scheduled a flush. -/
def emitSeq (capacity : Nat) (throttleLimit : Rat) (st : DispatcherState) :
    List (LogRecord × Rat) → DispatcherState × List Bool
  | [] => (st, [])
  | (r, t) :: rest =>
      let step := emit capacity throttleLimit st r t
      let next := emitSeq capacity throttleLimit step.1 rest
      (next.1, step.2 :: next.2)

/-- Constructor parameters scrutinized by `_validate_parameters`. -/
structure HandlerParams where
  capacity : Int
  flushInterval : Rat
  throttleLimit : Rat
  proxy : Option String

/-- Recognized proxy URL schemes. -/
def validSchemes : List String := ["http://", "https://", "socks5://"]

/-- Body of the `_validate_parameters` coroutine: the parameter checks in
source order, then the live probe (a test payload posted through
`_send_logs_to_webhook`; success is HTTP 204, any other status is re-raised as
a ValueError). -/
def validateParameters (p : HandlerParams) (probeStatus : Int) : Except String Unit :=
  if p.flushInterval ≤ 0 then .error "Flush interval must be a positive number."
  else if p.throttleLimit ≤ 0 then .error "Throttle limit must be a positive number."
  else if p.capacity ≤ 0 then .error "Buffer capacity must be a positive integer."
  else if (match p.proxy with
    | some url => !(validSchemes.any (fun s => url.startsWith s))
    | none => false) then .error "Proxy URL must start with a recognized scheme."
  else if probeStatus ≠ 204 then .error "Webhook validation failed"
  else .ok ()

/-- The dispatcher instance as built by the constructor. -/
structure DiscordWebHookHandler where
  capacity : Int
  flushInterval : Rat
  throttleLimit : Rat
  proxy : Option String
  buffer : List LogRecord
  lastSentTime : Rat

/-- Model of the `DiscordWebHookHandler` constructor: it assigns the
configuration and empty state, starts the background loop thread, and — only
when that loop is *not* yet running — schedules the `_validate_parameters`
coroutine fire-and-forget, never awaiting its result.  The first component is
the constructor outcome (always the instance); the second is the outcome
sitting in the never-inspected validation future, `none` when validation was
not even scheduled. -/
def initHandler (p : HandlerParams) (t0 : Rat) (loopRunning : Bool) (probeStatus : Int) :
    Except String DiscordWebHookHandler × Option (Except String Unit) :=
  (.ok ⟨p.capacity, p.flushInterval, p.throttleLimit, p.proxy, [], t0⟩,
    if loopRunning then none else some (validateParameters p probeStatus))

/-! ## Timestamp backup rotation (`do_rollover`, time mode) -/

/-- Sequential `os.remove` over a list of paths against the set of files on
disk: removing a missing path raises FileNotFoundError. -/
def removeAll (disk : List String) : List String → Except String (List String)
  | [] => .ok disk
  | p :: rest =>
      if disk.contains p then removeAll (disk.erase p) rest
      else .error ("FileNotFoundError: " ++ p)

/-- Model of `do_rollover` in timestamp ("time") mode: collect the existing
timestamped backups with their mtimes, append the about-to-be-created backup
name stamped with the current time, sort oldest-first, delete the first
`len(all) - backup_count` entries, and only then rename the live file and open
a new stream (modelled by returning the surviving backup set). -/
def doRolloverTime (existing : List (String × Rat)) (backupCount : Nat)
    (backupFile : String) (now : Rat) : Except String (List String) :=
  let candidates := existing ++ [(backupFile, now)]
  let sorted := candidates.mergeSort (fun a b => decide (a.2 ≤ b.2))
  let excess := sorted.length - backupCount
  let toRemove := (sorted.take excess).map Prod.fst
  match removeAll (existing.map Prod.fst) toRemove with
  | .error e => .error e
  | .ok disk => .ok (backupFile :: disk)

/-! ## Dispatcher theorems -/

/-- C1 (code evaluated at the failing inputs): constructing the dispatcher with
an invalid capacity, or with an endpoint whose connectivity probe does not
return 204, still yields a usable instance — whatever the state of the
background loop at the guard.  The validation coroutine would indeed raise for
those inputs, but it is fire-and-forget (and skipped entirely when the loop is
already running), so its error never reaches the constructor. -/
theorem construction_never_fails (loopRunning : Bool) :
    (initHandler ⟨0, 30, 1, none⟩ 0 loopRunning 204).1
        = .ok ⟨0, 30, 1, none, [], 0⟩
      ∧ (initHandler ⟨100, 30, 1, none⟩ 0 loopRunning 404).1
        = .ok ⟨100, 30, 1, none, [], 0⟩
      ∧ validateParameters ⟨0, 30, 1, none⟩ 204
        = .error "Buffer capacity must be a positive integer."
      ∧ validateParameters ⟨100, 30, 1, none⟩ 404
        = .error "Webhook validation failed"
      ∧ (initHandler ⟨0, 30, 1, none⟩ 0 true 204).2 = none :=
  ⟨rfl, rfl, rfl, rfl, rfl⟩

/-- C2: when the send performed inside a flush fails, the buffer after the
attempt is exactly the buffer before it (same length, same elements, same
order), the last-sent timestamp is not updated, and the exception propagates
to the flush caller. -/
theorem flush_failure_preserves_state (fmt : Formatter) (st : DispatcherState)
    (tNow : Rat) (msg : String) (p : JVal)
    (hsend : flushPayload fmt st.buffer = .ok (some p)) :
    (flushRun fmt st (.failure msg) tNow).2.buffer = st.buffer
      ∧ (flushRun fmt st (.failure msg) tNow).2.lastSentTime = st.lastSentTime
      ∧ (flushRun fmt st (.failure msg) tNow).1 = .error msg := by
  simp [flushRun, hsend]

/-- A plain-string formatter without a batch method, and a plain record, used
as concrete witnesses for the flush theorems. -/
def fmtPlain : Formatter := ⟨fun r => .str r.msg, none⟩

/-- A non-urgent record with message "x". -/
def recPlain : LogRecord := ⟨"x", none⟩

/-- Witness for C2 at a concrete formatter, buffer and failure. -/
theorem flush_failure_preserves_state_witness :
    flushPayload fmtPlain [recPlain] = .ok (some (JVal.obj [("content", JVal.str "x")]))
      ∧ ((flushRun fmtPlain ⟨[recPlain], 5⟩ (.failure "boom") 9).2.buffer = [recPlain]
        ∧ (flushRun fmtPlain ⟨[recPlain], 5⟩ (.failure "boom") 9).2.lastSentTime = 5
        ∧ (flushRun fmtPlain ⟨[recPlain], 5⟩ (.failure "boom") 9).1 = .error "boom") :=
  ⟨rfl, flush_failure_preserves_state fmtPlain ⟨[recPlain], 5⟩ 9 "boom"
    (JVal.obj [("content", JVal.str "x")]) rfl⟩

/-- C8: for every buffer whose flush produces a payload, a successful send
leaves the buffer empty and sets the last-sent timestamp to the clock value
read after the send — at or after the moment of the send itself. -/
theorem flush_success_clears_buffer (fmt : Formatter) (st : DispatcherState)
    (tSend tNow : Rat) (p : JVal)
    (hsend : flushPayload fmt st.buffer = .ok (some p))
    (hclock : tSend ≤ tNow) :
    (flushRun fmt st .success tNow).2.buffer = []
      ∧ (flushRun fmt st .success tNow).2.lastSentTime = tNow
      ∧ tSend ≤ (flushRun fmt st .success tNow).2.lastSentTime := by
  refine ⟨?_, ?_, ?_⟩ <;> simp [flushRun, hsend, hclock]

/-- Witness for C8 at a concrete formatter, buffer and clock values. -/
theorem flush_success_clears_buffer_witness :
    flushPayload fmtPlain [recPlain] = .ok (some (JVal.obj [("content", JVal.str "x")]))
      ∧ (3 : Rat) ≤ 9
      ∧ ((flushRun fmtPlain ⟨[recPlain], 5⟩ .success 9).2.buffer = []
        ∧ (flushRun fmtPlain ⟨[recPlain], 5⟩ .success 9).2.lastSentTime = 9
        ∧ (3 : Rat) ≤ (flushRun fmtPlain ⟨[recPlain], 5⟩ .success 9).2.lastSentTime) :=
  ⟨rfl, by norm_num,
    flush_success_clears_buffer fmtPlain ⟨[recPlain], 5⟩ 3 9
      (JVal.obj [("content", JVal.str "x")]) rfl (by norm_num)⟩

/-- A non-urgent record used in the emit-schedule theorems. -/
def recQuiet : LogRecord := ⟨"m", none⟩

/-- C4 counterexample: capacity 2, two non-urgent records, but the first emit
happens one second after the last successful send with a throttle limit of one
second, so a flush is scheduled already on the first emit — not only once the
second (capacity-th) record is appended. -/
theorem emit_capacity_counterexample :
    recordIsUrgent recQuiet = false
      ∧ (emitSeq 2 1 ⟨[], 0⟩ [(recQuiet, 1), (recQuiet, 2)]).2 = [true, true]
      ∧ (emitSeq 2 1 ⟨[], 0⟩ [(recQuiet, 1), (recQuiet, 2)]).2 ≠ [false, true] := by
  have h : (emitSeq 2 1 ⟨[], 0⟩ [(recQuiet, 1), (recQuiet, 2)]).2 = [true, true] := by
    norm_num [emitSeq, emit, shouldFlush, recordIsUrgent, recQuiet]
  refine ⟨rfl, h, ?_⟩
  rw [h]
  simp

theorem emitSeq_capacity_aux (capacity : Nat) (throttleLimit t0 : Rat) :
    ∀ (inputs : List (LogRecord × Rat)) (buf : List LogRecord),
      inputs ≠ [] →
      buf.length + inputs.length = capacity →
      (∀ p ∈ inputs, recordIsUrgent p.1 = false) →
      (∀ p ∈ inputs, p.2 - t0 < throttleLimit) →
      (emitSeq capacity throttleLimit ⟨buf, t0⟩ inputs).2
        = List.replicate (inputs.length - 1) false ++ [true] := by
  intro inputs
  induction inputs with
  | nil => intro buf h; exact absurd rfl h
  | cons q rest ih =>
      intro buf _ hlen hurg hth
      obtain ⟨r, t⟩ := q
      have hu : recordIsUrgent r = false := hurg (r, t) (List.mem_cons_self _ _)
      have htt : ¬ (throttleLimit ≤ t - t0) := by
        have := hth (r, t) (List.mem_cons_self _ _)
        simpa using not_le.mpr this
      have hstep : emit capacity throttleLimit ⟨buf, t0⟩ r t
          = (⟨buf ++ [r], t0⟩, decide (capacity ≤ buf.length + 1)) := by
        simp [emit, shouldFlush, hu, htt]
      cases rest with
      | nil =>
          have hcap : capacity ≤ buf.length + 1 := by
            simp at hlen
            omega
          simp [emitSeq, hstep, hcap]
      | cons q2 rest2 =>
          have hnotfull : ¬ (capacity ≤ buf.length + 1) := by
            simp at hlen
            omega
          have hlen2 : (buf ++ [r]).length + (q2 :: rest2).length = capacity := by
            simp at hlen ⊢
            omega
          have ihr := ih (buf ++ [r]) (by simp) hlen2
            (fun p hp => hurg p (List.mem_cons_of_mem _ hp))
            (fun p hp => hth p (List.mem_cons_of_mem _ hp))
          have hunfold : (emitSeq capacity throttleLimit ⟨buf, t0⟩ ((r, t) :: q2 :: rest2)).2
              = (emit capacity throttleLimit ⟨buf, t0⟩ r t).2
                :: (emitSeq capacity throttleLimit
                    (emit capacity throttleLimit ⟨buf, t0⟩ r t).1 (q2 :: rest2)).2 := rfl
          rw [hunfold, hstep]
          dsimp only
          rw [ihr]
          have hd : decide (capacity ≤ buf.length + 1) = false :=
            decide_eq_false hnotfull
          rw [hd]
          simp [List.replicate_succ]

/-- C4 (amended): when `emit` is called `C = capacity` times with non-urgent
records, *and every call happens strictly before the throttle limit has
elapsed since the last successful send*, exactly one flush is scheduled, on
the emit that appends the C-th record — not on any earlier one.  (Without the
throttle restriction the claim fails: condition (c) of the should-flush
decision schedules a flush on an earlier emit once the throttle period has
expired, as the counterexample shows.) -/
theorem emit_capacity_schedules_once (capacity : Nat) (throttleLimit t0 : Rat)
    (inputs : List (LogRecord × Rat)) (hcap : 1 ≤ capacity)
    (hlen : inputs.length = capacity)
    (hurg : ∀ p ∈ inputs, recordIsUrgent p.1 = false)
    (hth : ∀ p ∈ inputs, p.2 - t0 < throttleLimit) :
    (emitSeq capacity throttleLimit ⟨[], t0⟩ inputs).2
      = List.replicate (capacity - 1) false ++ [true] := by
  have hne : inputs ≠ [] := by
    intro h
    rw [h] at hlen
    simp at hlen
    omega
  have := emitSeq_capacity_aux capacity throttleLimit t0 inputs [] hne
    (by simpa using hlen) hurg hth
  rwa [hlen] at this

/-- Witness for C4 (amended): capacity 2, throttle limit 10, both emits within
the throttle window — the flush schedule pattern is `[false, true]`. -/
theorem emit_capacity_schedules_once_witness :
    (emitSeq 2 10 ⟨[], 0⟩ [(recQuiet, 1), (recQuiet, 2)]).2
      = List.replicate 1 false ++ [true] :=
  emit_capacity_schedules_once 2 10 0 [(recQuiet, 1), (recQuiet, 2)]
    (by norm_num) rfl
    (by simp [List.forall_mem_cons, recordIsUrgent, recQuiet])
    (by norm_num [List.forall_mem_cons])

/-- A formatter producing the plain string carried by each record, offering a
record-wise-agreeing `format_batch` (one string per record, in order). -/
def fmtStrBatch : Formatter :=
  ⟨fun r => .str r.msg, some (fun rs => .arr (rs.map (fun r => JVal.str r.msg)))⟩

/-- The same formatter without the batch method. -/
def fmtStrNoBatch : Formatter := ⟨fun r => .str r.msg, none⟩

/-- C9 counterexample: a formatter whose per-record output is the plain string
"x" and whose `format_batch` returns exactly the list of per-record outputs
agrees record-wise, yet the batch path sends nothing (plain strings are not
valid embeds, so they are silently discarded) while the per-record path sends
a content payload: the two paths are not equivalent. -/
theorem batch_path_counterexample :
    (fmtStrBatch.formatBatch.map (fun fb => fb [recPlain]))
        = some (JVal.arr ([recPlain].map fmtStrBatch.format))
      ∧ flushPayload fmtStrNoBatch [recPlain]
        = .ok (some (JVal.obj [("content", JVal.str "x")]))
      ∧ flushPayload fmtStrBatch [recPlain] = .ok none
      ∧ flushPayload fmtStrBatch [recPlain] ≠ flushPayload fmtStrNoBatch [recPlain] := by
  refine ⟨rfl, rfl, rfl, ?_⟩
  have h1 : flushPayload fmtStrBatch [recPlain] = .ok none := rfl
  have h2 : flushPayload fmtStrNoBatch [recPlain]
      = .ok (some (JVal.obj [("content", JVal.str "x")])) := rfl
  rw [h1, h2]
  intro h
  injection h with h
  exact Option.noConfusion h

theorem buildPerRecord_embeds (g : LogRecord → JVal) (l : List LogRecord) :
    buildPerRecord (l.map (fun r => JVal.obj [("embeds", JVal.arr [g r])]))
      = .ok ((l.map g).filter (fun e => isValidEmbed e)) := by
  induction l with
  | nil => rfl
  | cons r l ih =>
      simp only [List.map_cons, buildPerRecord, jlookup, if_pos rfl]
      rw [ih]
      by_cases hv : isValidEmbed (g r) <;> simp [hv, List.filter_cons]

/-- C9 (amended): the batch path and the per-record path are equivalent when
the record-wise agreement is in embed form — each record formats to a
dictionary whose `"embeds"` list holds one embed, and `format_batch` returns
exactly the list of those embeds.  Both paths then keep exactly the valid
embeds and build identical payloads (and make identical send/skip decisions).
For plain-string formatters the equivalence fails, as the counterexample
shows. -/
theorem batch_embed_equivalence (g : LogRecord → JVal) (records : List LogRecord) :
    flushPayload
        ⟨fun r => JVal.obj [("embeds", JVal.arr [g r])],
          some (fun rs => JVal.arr (rs.map g))⟩ records
      = flushPayload ⟨fun r => JVal.obj [("embeds", JVal.arr [g r])], none⟩ records := by
  cases records with
  | nil => rfl
  | cons r rs =>
      simp only [flushPayload, List.isEmpty_cons, Bool.false_eq_true, if_false,
        List.map_cons, buildBatch]
      have hpr := buildPerRecord_embeds g (r :: rs)
      simp only [List.map_cons] at hpr
      rw [hpr]

/-! ## Timestamp-mode rollover theorem -/

theorem removeAll_missing (p : String) : ∀ (ps : List String) (disk : List String),
    p ∈ ps → ¬ p ∈ disk → ∃ msg, removeAll disk ps = .error msg := by
  intro ps
  induction ps with
  | nil => intro disk h; exact absurd h (List.not_mem_nil p)
  | cons q rest ih =>
      intro disk hmem hnd
      by_cases hq : disk.contains q = true
      · rcases List.mem_cons.mp hmem with heq | hp
        · subst heq
          exact absurd (List.elem_iff.mp hq) hnd
        · have hnd2 : ¬ p ∈ disk.erase q := fun hc => hnd (List.mem_of_mem_erase hc)
          obtain ⟨msg, hmsg⟩ := ih (disk.erase q) hp hnd2
          refine ⟨msg, ?_⟩
          show (if disk.contains q = true then removeAll (disk.erase q) rest
              else Except.error ("FileNotFoundError: " ++ q)) = Except.error msg
          rw [if_pos hq, hmsg]
      · refine ⟨"FileNotFoundError: " ++ q, ?_⟩
        show (if disk.contains q = true then removeAll (disk.erase q) rest
            else Except.error ("FileNotFoundError: " ++ q)) = _
        rw [if_neg hq]

/-- C10: in timestamp mode with `backup_count = 0`, the cleanup pass counts
the about-to-be-created backup (appended to the candidate list before the live
file is renamed) among the excess oldest files and attempts to delete it at a
path that does not exist yet, so `do_rollover` always raises and never reaches
the rename/reopen step. -/
theorem time_mode_zero_backups_always_raise (existing : List (String × Rat))
    (backupFile : String) (now : Rat)
    (hfresh : ¬ backupFile ∈ existing.map Prod.fst) :
    ∃ msg, doRolloverTime existing 0 backupFile now = .error msg := by
  have hcand : (backupFile, now) ∈ existing ++ [(backupFile, now)] :=
    List.mem_append_right _ (List.mem_singleton.mpr rfl)
  have hsorted : (backupFile, now)
      ∈ (existing ++ [(backupFile, now)]).mergeSort (fun a b => decide (a.2 ≤ b.2)) :=
    (List.mem_mergeSort).mpr hcand
  have htake :
      ((existing ++ [(backupFile, now)]).mergeSort (fun a b => decide (a.2 ≤ b.2))).take
        (((existing ++ [(backupFile, now)]).mergeSort
          (fun a b => decide (a.2 ≤ b.2))).length - 0)
      = (existing ++ [(backupFile, now)]).mergeSort (fun a b => decide (a.2 ≤ b.2)) := by
    simp
  have hmemRemove : backupFile
      ∈ (((existing ++ [(backupFile, now)]).mergeSort (fun a b => decide (a.2 ≤ b.2))).take
          (((existing ++ [(backupFile, now)]).mergeSort
            (fun a b => decide (a.2 ≤ b.2))).length - 0)).map Prod.fst := by
    rw [htake]
    exact List.mem_map_of_mem Prod.fst hsorted
  obtain ⟨msg, hmsg⟩ := removeAll_missing backupFile _ (existing.map Prod.fst)
    hmemRemove hfresh
  refine ⟨msg, ?_⟩
  simp only [doRolloverTime]
  rw [hmsg]

/-- Witness for C10 at a concrete directory state. -/
theorem time_mode_zero_backups_always_raise_witness :
    ¬ "new" ∈ ([("old", (1 : Rat))].map Prod.fst)
      ∧ ∃ msg, doRolloverTime [("old", (1 : Rat))] 0 "new" 5 = .error msg :=
  ⟨by decide, time_mode_zero_backups_always_raise [("old", 1)] "new" 5 (by decide)⟩

end ElysianLogging
